import Mathlib

/-!
Verification of the retrieval core of a RAG-based civic analysis system.

The development embeds, in Lean, the algorithmic core of the two Python
entry points of the repository:

* `app.py` — per-user constitutional Q&A: sentence chunking with overlap
  (`chunk_text`), per-user session store (`user_documents`), ingestion
  (`create_user_index`), retrieval (`semantic_search`), question answering
  (`ask_question`), summary generation (`generate_summary`) and deletion
  (`delete_user_document`).  These live in namespace `PyApp`.
* `main.py` — shared-corpus ensemble retrieval: two sentence-transformer
  models embed the query, a single FAISS index loaded at startup is searched
  with both query embeddings, and the two result lists are fused with
  weights 0.7/0.3 (`semantic_search`).  These live in namespace `PyMain`.

Modelling conventions:

* A sentence is represented by its whitespace-delimited token list (the
  result of Python's `sentence.split()`): the source manipulates a sentence
  only through `len(sentence.split())` and as an opaque value that is later
  joined back with single spaces, so the token list carries all structure
  the algorithms consult.  A chunk is kept as its list of sentences; the
  token count of the joined chunk string equals the sum of the per-sentence
  token counts.
* Embedding vectors and scores use exact rationals `ℚ` in place of IEEE
  floats; the float literals `0.7` and `0.3` of the source become the exact
  rationals `7/10` and `3/10`.
* The models (`SentenceTransformer.encode`), the LLM chain and the clock
  are external collaborators and enter as function parameters.
* Python dictionaries are association lists with Python `dict` semantics:
  assignment to an existing key overwrites in place (keeping the original
  position), assignment to a fresh key appends, `dict.values()` is the
  value list in that order.
-/

/-- A sentence, represented by its whitespace-delimited token list
(the result of Python's `sentence.split()`). -/
abbrev Sentence := List String

/-- Token count of a chunk held as a list of sentences.  The source keeps
`current_length` as the running sum of `len(s.split())` over the sentences
of the current chunk, which is exactly this sum. -/
def sumTok (c : List Sentence) : Nat := (c.map List.length).sum

/-- The last `n` elements of a list: Python's `l[-n:]` for `n > 0`. -/
def lastN (n : Nat) (l : List α) : List α := l.drop (l.length - n)

/-- Python `dict` assignment `m[k] = v`: overwrite in place if the key is
present (keeping its position), append otherwise. -/
def dictInsert [DecidableEq κ] : List (κ × ν) → κ → ν → List (κ × ν)
  | [], k, v => [(k, v)]
  | (k₀, v₀) :: t, k, v =>
    if k₀ = k then (k, v) :: t else (k₀, v₀) :: dictInsert t k v

/-- Python `dict` lookup `m.get(k)`: the first binding of the key wins
(with the unique keys a `dict` maintains, it is the only one). -/
def dictLookup [DecidableEq κ] : List (κ × ν) → κ → Option ν
  | [], _ => none
  | (k₀, v₀) :: t, k => if k₀ = k then some v₀ else dictLookup t k

/-- Python `del m[k]`: remove the binding of `k`. -/
def dictErase [DecidableEq κ] (m : List (κ × ν)) (k : κ) : List (κ × ν) :=
  m.filter fun p => decide (p.1 ≠ k)

/-- Key list of an association-list dictionary. -/
def dictKeys (m : List (κ × ν)) : List κ := m.map Prod.fst

/-- Inner product of two vectors (`faiss.IndexFlatIP` scoring of
normalized embeddings). -/
def dot (q v : List ℚ) : ℚ := (List.zipWith (· * ·) q v).sum

/-- Ranking relation for index search results `(position, score)`:
descending score, ties broken by ascending position. -/
def srank (a b : Nat × ℚ) : Prop := b.2 < a.2 ∨ (a.2 = b.2 ∧ a.1 ≤ b.1)

instance : DecidableRel srank := fun a b => by unfold srank; infer_instance

instance : IsTotal (Nat × ℚ) srank := by
  constructor
  intro a b
  unfold srank
  rcases lt_trichotomy a.2 b.2 with h | h | h
  · exact Or.inr (Or.inl h)
  · rcases Nat.le_total a.1 b.1 with h₁ | h₁
    · exact Or.inl (Or.inr ⟨h, h₁⟩)
    · exact Or.inr (Or.inr ⟨h.symm, h₁⟩)
  · exact Or.inl (Or.inl h)

instance : IsTrans (Nat × ℚ) srank := by
  constructor
  intro a b c hab hbc
  unfold srank at *
  rcases hab with hab | ⟨hab, hab'⟩
  · rcases hbc with hbc | ⟨hbc, _⟩
    · exact Or.inl (hbc.trans hab)
    · exact Or.inl (hbc ▸ hab)
  · rcases hbc with hbc | ⟨hbc, hbc'⟩
    · exact Or.inl (hab ▸ hbc)
    · exact Or.inr ⟨hab.trans hbc, hab'.trans hbc'⟩

/-- Modelled from the spec: the vector index is `faiss.IndexFlatIP`, a
third-party collaborator whose implementation is not part of this
repository's sources.  Spec §4.3 specifies exact inner-product top-k
search over the `N` stored vectors: results are `(position, score)`
pairs ordered by descending score (ties by ascending original position),
of length `min k N`.  `vecs` is the stored vector matrix in insertion
order; `q` the query embedding. -/
def isearch (vecs : List (List ℚ)) (q : List ℚ) (k : Nat) : List (Nat × ℚ) :=
  (List.insertionSort srank (vecs.map (dot q)).enum).take k

namespace PyApp

/-- Chunk-accumulation loop of `chunk_text` (`app.py`): greedily append
sentences while the running token count stays within `maxTokens`; on
overflow close the current chunk and seed the next one with the last
`ov` sentences of the closed chunk (Python `current_chunk[-ov:]` guarded
by `if overlap_sentences`) followed by the overflowing sentence, with the
running length recomputed as the sum over the new chunk. -/
def chunkLoop (maxTokens ov : Nat) :
    List Sentence → List (List Sentence) → List Sentence → Nat → List (List Sentence)
  | [], chunks, cur, _ => if cur.isEmpty then chunks else chunks ++ [cur]
  | s :: rest, chunks, cur, curLen =>
    if curLen + s.length ≤ maxTokens then
      chunkLoop maxTokens ov rest chunks (cur ++ [s]) (curLen + s.length)
    else
      let closed := if cur.isEmpty then chunks else chunks ++ [cur]
      let ovl := if ov = 0 then [] else lastN ov cur
      chunkLoop maxTokens ov rest closed (ovl ++ [s]) (sumTok (ovl ++ [s]))

/-- `chunk_text(text, max_tokens=300, overlap_sentences=2)` of `app.py`,
after the external `sent_tokenize` has produced the sentence list. -/
def chunk_text (sentences : List Sentence) (maxTokens : Nat := 300)
    (ov : Nat := 2) : List (List Sentence) :=
  chunkLoop maxTokens ov sentences [] [] 0

/-- Metadata stored for one ingested document (`create_user_index`). -/
structure Metadata where
  filename : String
  chunks : List (List Sentence)
  upload_date : String
  total_chunks : Nat
deriving DecidableEq, Inhabited

/-- One entry of the global `user_documents` table: the FAISS index (its
stored vector matrix) plus the metadata. -/
structure Session where
  index : List (List ℚ)
  metadata : Metadata
deriving DecidableEq, Inhabited

/-- The global `user_documents` dictionary `{user_id: {index, metadata}}`. -/
abbrev Store := List (String × Session)

/-- `create_user_index(user_id, file_path, filename)` of `app.py`.  Text
extraction (`fitz` for `.pdf`, `python-docx` for `.docx`), `clean_text`
and NLTK's `sent_tokenize` are external collaborators summarised by the
`sentences` parameter; the embedding model is the `embed` parameter and
the clock the `now` parameter.  A filename ending in neither `.pdf` nor
`.docx` raises `Unsupported file format` before anything else; empty
chunking raises `No text extracted from document`; only on success is
`user_documents[user_id]` assigned.  The pair returned is the resulting
store together with the metadata or the raised error message. -/
def create_user_index (embed : List (List Sentence) → List (List ℚ))
    (now : String) (docs : Store) (user_id filename : String)
    (sentences : List Sentence) : Store × Except String Metadata :=
  if List.isSuffixOf ".pdf".data filename.data
      ∨ List.isSuffixOf ".docx".data filename.data then
    let chunks := chunk_text sentences 300 2
    if chunks.isEmpty then
      (docs, .error "No text extracted from document")
    else
      let embeddings := embed chunks
      let metadata : Metadata :=
        ⟨filename, chunks, now, chunks.length⟩
      (dictInsert docs user_id ⟨embeddings, metadata⟩, .ok metadata)
  else
    (docs, .error "Unsupported file format")

/-- One search hit of `app.py`'s `semantic_search`: chunk text (as its
sentence list), score, chunk index. -/
structure SearchResult where
  chunk_txt : List Sentence
  score : ℚ
  chunk_index : Nat
deriving DecidableEq, Inhabited

/-- `semantic_search(user_id, query, k=5)` of `app.py`: empty result for
an unknown user; otherwise search the user's index with the embedded
query and keep hits whose position is within the chunk list. -/
def semantic_search (embedQ : String → List ℚ) (docs : Store)
    (user_id query : String) (k : Nat := 5) : List SearchResult :=
  match dictLookup docs user_id with
  | none => []
  | some d =>
    (isearch d.index (embedQ query) k).filterMap fun p =>
      if p.1 < d.metadata.chunks.length then
        some ⟨d.metadata.chunks.getD p.1 [], p.2, p.1⟩
      else none

/-- Outcome of the `/ask` route (`ask_question`): the 404 for a missing
session, the fixed no-results answer, or an LLM answer with sources. -/
inductive AskOutcome where
  | notFound
  | noResults
  | answered (answer : String) (results : List SearchResult)
deriving DecidableEq

/-- `ask_question` of `app.py`, after request-shape validation: 404 when
`user_id` is not in `user_documents`, the fixed message when the search
returns nothing, otherwise the LLM's answer over the retrieved context
(the LLM chain is the external `llm` parameter). -/
def ask_question (embedQ : String → List ℚ) (llm : List SearchResult → String)
    (docs : Store) (user_id question : String) : AskOutcome :=
  match dictLookup docs user_id with
  | none => .notFound
  | some _ =>
    let results := semantic_search embedQ docs user_id question 5
    if results.isEmpty then .noResults
    else .answered (llm results) results

/-- Response body of the `/summary` route. -/
structure SummaryResponse where
  summary : String
  filename : String
  chunks_analyzed : Nat
  total_chunks : Nat
deriving DecidableEq, Inhabited

/-- `generate_summary` of `app.py`: 404 for a missing session; otherwise
the context is `chunks[:50]` when more than 50 chunks exist (`max_chunks =
50`), all chunks otherwise, and the response reports the number analyzed
and the total.  The LLM chain is the external `llm` parameter, applied to
the selected chunk list. -/
def generate_summary (llm : List (List Sentence) → String) (docs : Store)
    (user_id : String) : Except String SummaryResponse :=
  match dictLookup docs user_id with
  | none => .error "Document not found"
  | some d =>
    let chunks := d.metadata.chunks
    let selected := if chunks.length > 50 then chunks.take 50 else chunks
    .ok ⟨llm selected, d.metadata.filename, selected.length, chunks.length⟩

/-- Outcome of the DELETE `/documents` route. -/
inductive DeleteOutcome where
  | notFound
  | deleted
deriving DecidableEq

/-- `delete_user_document(user_id)` of `app.py`: 404 when the user is not
in `user_documents`, otherwise `del user_documents[user_id]` (upload-file
cleanup on disk is an external effect outside the session table). -/
def delete_user_document (docs : Store) (user_id : String) :
    Store × DeleteOutcome :=
  match dictLookup docs user_id with
  | none => (docs, .notFound)
  | some _ => (dictErase docs user_id, .deleted)

end PyApp

namespace PyMain

/-- One row of the `sdg_faiss_metadata.csv` frame `df_chunks`. -/
structure ChunkMeta where
  chunk_id : String
  theme : String
  file_name : String
  chunk_text : String
deriving DecidableEq, Inhabited

/-- Value stored in `combined_results` before the `combined_score` pass:
the fields written by the two result loops of `semantic_search`. -/
structure FusedEntry where
  theme : String
  file : String
  chunk_text : String
  score_primary : ℚ
  score_enhanced : ℚ
  idx : Int
deriving DecidableEq, Inhabited

/-- A fused result after the `combined_score` assignment. -/
structure RankedEntry where
  theme : String
  file : String
  chunk_text : String
  score_primary : ℚ
  score_enhanced : ℚ
  idx : Int
  combined_score : ℚ
deriving DecidableEq, Inhabited

/-- The fusion formula of `semantic_search` (`main.py` line 144):
`score_primary * 0.7 + score_enhanced * 0.3`. -/
def combinedScore (p s : ℚ) : ℚ := p * 0.7 + s * 0.3

/-- The `combined_score` assignment applied to one entry. -/
def withCombined (e : FusedEntry) : RankedEntry :=
  ⟨e.theme, e.file, e.chunk_text, e.score_primary, e.score_enhanced, e.idx,
    combinedScore e.score_primary e.score_enhanced⟩

/-- `df_chunks.iloc[idx]`: pandas positional indexing, with Python's
negative-index wrap-around (out-of-range access, which the call sites
guard against, yields the default row). -/
def rowOf (df : List ChunkMeta) (idx : Int) : ChunkMeta :=
  if idx < 0 then df.getD (df.length - (-idx).toNat) default
  else df.getD idx.toNat default

/-- Entry written by the primary-results loop for a hit `(score, idx)`:
row fields from `df_chunks.iloc[idx]`, `score_primary = score`,
`score_enhanced = 0.0`. -/
def primaryEntry (df : List ChunkMeta) (p : ℚ × Int) : FusedEntry :=
  ⟨(rowOf df p.2).theme, (rowOf df p.2).file_name, (rowOf df p.2).chunk_text,
    p.1, 0, p.2⟩

/-- Entry written by the enhanced-results loop when the chunk is new:
`score_primary = 0.0`, `score_enhanced = score`. -/
def enhancedEntry (df : List ChunkMeta) (p : ℚ × Int) : FusedEntry :=
  ⟨(rowOf df p.2).theme, (rowOf df p.2).file_name, (rowOf df p.2).chunk_text,
    0, p.1, p.2⟩

/-- First loop of `semantic_search` (`main.py` lines 116-126): for each
primary hit `(score, idx)` with `idx != -1 and idx < len(df_chunks)`,
assign `combined_results[chunk_id]` to the primary entry. -/
def primaryFold (df : List ChunkMeta) :
    List (ℚ × Int) → List (String × FusedEntry) → List (String × FusedEntry)
  | [], m => m
  | p :: t, m =>
    if p.2 ≠ -1 ∧ p.2 < (df.length : Int) then
      primaryFold df t (dictInsert m (rowOf df p.2).chunk_id (primaryEntry df p))
    else primaryFold df t m

/-- Second loop of `semantic_search` (`main.py` lines 128-141): for each
enhanced hit, update `score_enhanced` of an existing entry in place, or
insert a fresh entry with `score_primary = 0.0`. -/
def enhancedFold (df : List ChunkMeta) :
    List (ℚ × Int) → List (String × FusedEntry) → List (String × FusedEntry)
  | [], m => m
  | p :: t, m =>
    if p.2 ≠ -1 ∧ p.2 < (df.length : Int) then
      match dictLookup m (rowOf df p.2).chunk_id with
      | some e =>
        enhancedFold df t
          (dictInsert m (rowOf df p.2).chunk_id { e with score_enhanced := p.1 })
      | none =>
        enhancedFold df t
          (dictInsert m (rowOf df p.2).chunk_id (enhancedEntry df p))
    else enhancedFold df t m

/-- The `combined_results` dictionary after both loops, starting empty. -/
def fuseDict (df : List ChunkMeta) (P E : List (ℚ × Int)) :
    List (String × FusedEntry) :=
  enhancedFold df E (primaryFold df P [])

/-- Ranking relation of the final `sorted(..., reverse=True)`:
descending `combined_score` (Python's sort is stable on ties). -/
def rrank (a b : RankedEntry) : Prop := b.combined_score ≤ a.combined_score

instance : DecidableRel rrank := fun a b => by unfold rrank; infer_instance

instance : IsTotal RankedEntry rrank :=
  ⟨fun a b => le_total b.combined_score a.combined_score⟩

instance : IsTrans RankedEntry rrank :=
  ⟨fun _ _ _ hab hbc => le_trans hbc hab⟩

/-- Fusion tail of `semantic_search` (`main.py` lines 114-147) applied to
the two raw result lists: build `combined_results`, assign
`combined_score` to every value, sort the values by descending
`combined_score` and keep the first `k`. -/
def fuseResults (df : List ChunkMeta) (P E : List (ℚ × Int)) (k : Nat) :
    List RankedEntry :=
  (List.insertionSort rrank
    ((fuseDict df P E).map fun q => withCombined q.2)).take k

/-- A raw search-result list `zip(distances[0], indices[0])` obtained from
searching the index `vecs` with query embedding `qv`. -/
def resList (vecs : List (List ℚ)) (qv : List ℚ) (k : Nat) : List (ℚ × Int) :=
  (isearch vecs qv k).map fun p => (p.2, (p.1 : Int))

/-- `semantic_search(query, k=10)` of `main.py`: the query is embedded by
both providers (`embedP`, `embedE`, the two sentence-transformer models),
and **both** query embeddings are searched against the single index
`vecs` loaded at startup (`faiss.read_index`); the two result lists are
then fused. -/
def semantic_search (embedP embedE : String → List ℚ) (df : List ChunkMeta)
    (vecs : List (List ℚ)) (query : String) (k : Nat := 10) :
    List RankedEntry :=
  fuseResults df (resList vecs (embedP query) k)
    (resList vecs (embedE query) k) k

/-- The ensemble described by the spec (§4.2, §4.4): two parallel index
structures over the same chunk list, each built from its own provider's
embeddings of the full chunk set, and each provider's query embedding
searched against its own index.  This definition follows the spec's
words, for comparison with `semantic_search` above. -/
def semantic_search_twoIndex (embedP embedE : String → List ℚ)
    (df : List ChunkMeta) (vecsP vecsE : List (List ℚ)) (query : String)
    (k : Nat := 10) : List RankedEntry :=
  fuseResults df (resList vecsP (embedP query) k)
    (resList vecsE (embedE query) k) k

/-- Hits of a raw result list that pass the `idx != -1 and idx <
len(df_chunks)` guard. -/
def validRes (df : List ChunkMeta) (res : List (ℚ × Int)) : List (ℚ × Int) :=
  res.filter fun p => decide (p.2 ≠ -1 ∧ p.2 < (df.length : Int))

/-- The valid hits of a raw result list keyed by their chunk id. -/
def resAssoc (df : List ChunkMeta) (res : List (ℚ × Int)) :
    List (String × (ℚ × Int)) :=
  (validRes df res).map fun p => ((rowOf df p.2).chunk_id, p)

/-- Chunk ids of the valid hits of a raw result list, in order. -/
def cidsOf (df : List ChunkMeta) (res : List (ℚ × Int)) : List String :=
  (resAssoc df res).map Prod.fst

/-- Score a result list contributes to a chunk id: the hit's score when
the id is among the valid hits, `0.0` otherwise. -/
def sideScore (df : List ChunkMeta) (res : List (ℚ × Int)) (cid : String) : ℚ :=
  match dictLookup (resAssoc df res) cid with
  | some p => p.1
  | none => 0

end PyMain

/-! Association-list dictionary lemmas (Python `dict` semantics). -/

theorem dictLookup_dictInsert_self [DecidableEq κ] (m : List (κ × ν)) (k : κ)
    (v : ν) : dictLookup (dictInsert m k v) k = some v := by
  induction m with
  | nil => simp [dictInsert, dictLookup]
  | cons p t ih =>
    obtain ⟨k₀, v₀⟩ := p
    by_cases h : k₀ = k
    · simp [dictInsert, dictLookup, h]
    · simp [dictInsert, dictLookup, h, ih]

theorem dictLookup_dictInsert_ne [DecidableEq κ] (m : List (κ × ν)) (k k₁ : κ)
    (v : ν) (h : k₁ ≠ k) :
    dictLookup (dictInsert m k v) k₁ = dictLookup m k₁ := by
  have h' : ¬ (k = k₁) := fun hh => h hh.symm
  induction m with
  | nil => simp [dictInsert, dictLookup, h']
  | cons p t ih =>
    obtain ⟨k₀, v₀⟩ := p
    by_cases h₀ : k₀ = k
    · subst h₀
      simp [dictInsert, dictLookup, h']
    · simp [dictInsert, dictLookup, h₀, ih]

theorem mem_dictKeys_dictInsert [DecidableEq κ] (m : List (κ × ν)) (k x : κ)
    (v : ν) : x ∈ dictKeys (dictInsert m k v) ↔ x = k ∨ x ∈ dictKeys m := by
  induction m with
  | nil => simp [dictInsert, dictKeys]
  | cons p t ih =>
    obtain ⟨k₀, v₀⟩ := p
    by_cases h : k₀ = k
    · subst h
      have hstep : dictInsert ((k₀, v₀) :: t) k₀ v = (k₀, v) :: t := by
        simp [dictInsert]
      rw [hstep]
      simp only [dictKeys, List.map_cons, List.mem_cons]
      tauto
    · have hstep : dictInsert ((k₀, v₀) :: t) k v =
          (k₀, v₀) :: dictInsert t k v := by
        simp [dictInsert, h]
      rw [hstep]
      simp only [dictKeys, List.map_cons, List.mem_cons]
      have ih' : x ∈ List.map Prod.fst (dictInsert t k v) ↔
          x = k ∨ x ∈ List.map Prod.fst t := ih
      rw [ih']
      tauto

theorem dictKeys_dictInsert_nodup [DecidableEq κ] (m : List (κ × ν)) (k : κ)
    (v : ν) (h : (dictKeys m).Nodup) : (dictKeys (dictInsert m k v)).Nodup := by
  induction m with
  | nil => simp [dictInsert, dictKeys]
  | cons p t ih =>
    obtain ⟨k₀, v₀⟩ := p
    simp only [dictKeys, List.map_cons, List.nodup_cons] at h
    by_cases hk : k₀ = k
    · subst hk
      have hstep : dictInsert ((k₀, v₀) :: t) k₀ v = (k₀, v) :: t := by
        simp [dictInsert]
      rw [hstep]
      simp only [dictKeys, List.map_cons, List.nodup_cons]
      exact ⟨h.1, h.2⟩
    · have hstep : dictInsert ((k₀, v₀) :: t) k v =
          (k₀, v₀) :: dictInsert t k v := by
        simp [dictInsert, hk]
      rw [hstep]
      simp only [dictKeys, List.map_cons, List.nodup_cons]
      refine ⟨?_, ih h.2⟩
      intro hmem
      rcases (mem_dictKeys_dictInsert t k k₀ v).mp hmem with hh | hh
      · exact hk hh
      · exact h.1 hh

theorem dictLookup_eq_none_iff [DecidableEq κ] (m : List (κ × ν)) (k : κ) :
    dictLookup m k = none ↔ k ∉ dictKeys m := by
  induction m with
  | nil => simp [dictLookup, dictKeys]
  | cons p t ih =>
    obtain ⟨k₀, v₀⟩ := p
    by_cases h : k₀ = k
    · simp [dictLookup, dictKeys, h]
    · simp only [dictLookup, if_neg h, dictKeys, List.map_cons,
        List.mem_cons, ih, dictKeys]
      constructor
      · rintro hh (hh' | hh')
        · exact h hh'.symm
        · exact hh hh'
      · intro hh
        exact fun hm => hh (Or.inr hm)

theorem mem_iff_dictLookup [DecidableEq κ] (m : List (κ × ν)) (k : κ) (v : ν)
    (hm : (dictKeys m).Nodup) : (k, v) ∈ m ↔ dictLookup m k = some v := by
  induction m with
  | nil => simp [dictLookup]
  | cons p t ih =>
    obtain ⟨k₀, v₀⟩ := p
    simp only [dictKeys, List.map_cons, List.nodup_cons] at hm
    by_cases h : k₀ = k
    · subst h
      constructor
      · intro hmem
        rcases List.mem_cons.mp hmem with hh | hh
        · have hv : v = v₀ := (Prod.mk.injEq ..).mp hh.symm |>.2 |>.symm
          simp [dictLookup, hv]
        · exact absurd (List.mem_map_of_mem Prod.fst hh) hm.1
      · intro hv
        have hstep : dictLookup ((k₀, v₀) :: t) k₀ = some v₀ := by
          simp [dictLookup]
        rw [hstep, Option.some.injEq] at hv
        exact List.mem_cons.mpr (Or.inl (by rw [hv]))
    · constructor
      · intro hmem
        rcases List.mem_cons.mp hmem with hh | hh
        · exact absurd (congrArg Prod.fst hh).symm h
        · simpa [dictLookup, h] using (ih hm.2).mp hh
      · intro hv
        simp only [dictLookup, if_neg h] at hv
        exact List.mem_cons.mpr (Or.inr ((ih hm.2).mpr hv))

theorem dictLookup_dictErase_self [DecidableEq κ] (m : List (κ × ν)) (k : κ) :
    dictLookup (dictErase m k) k = none := by
  induction m with
  | nil => simp [dictErase, dictLookup]
  | cons p t ih =>
    obtain ⟨k₀, v₀⟩ := p
    by_cases h : k₀ = k
    · simpa [dictErase, List.filter, h] using ih
    · simpa [dictErase, List.filter, h, dictLookup] using ih

/-! Claims C7-C10: store lifecycle, fusion monotonicity, summary bound. -/

deriving instance DecidableEq for Except

/-- C7: if ingestion fails (unsupported file format, or empty segmentation
result), no session is created or replaced under the requested id — the
session table returned by `create_user_index` is exactly the one it
started from, so any pre-existing session for that id remains intact. -/
theorem C7_failed_ingestion_preserves_store
    (embed : List (List Sentence) → List (List ℚ)) (now : String)
    (docs : PyApp.Store) (uid fname : String) (sents : List Sentence)
    (e : String)
    (h : (PyApp.create_user_index embed now docs uid fname sents).2 =
      .error e) :
    (PyApp.create_user_index embed now docs uid fname sents).1 = docs := by
  unfold PyApp.create_user_index at h ⊢
  simp only [] at h ⊢
  split at h
  next hfmt =>
    split at h
    next hempty => rw [if_pos hfmt, if_pos hempty]
    next hempty => simp at h
  next hfmt => rw [if_neg hfmt]

/-- Store holding one concrete session, for the C7 witness. -/
def c7Store : PyApp.Store := [("u", ⟨[], ⟨"c.pdf", [[["hi"]]], "t0", 1⟩⟩)]

/-- C7 witness: ingesting a `.txt` file against a store with one live
session fails with the format error and leaves the store unchanged. -/
theorem C7_failed_ingestion_preserves_store_witness :
    (PyApp.create_user_index (fun _ => []) "t1" c7Store "u" "notes.txt"
        [["hello"]]).2 = .error "Unsupported file format"
    ∧ (PyApp.create_user_index (fun _ => []) "t1" c7Store "u" "notes.txt"
        [["hello"]]).1 = c7Store :=
  ⟨by decide,
    C7_failed_ingestion_preserves_store (fun _ => []) "t1" c7Store "u"
      "notes.txt" [["hello"]] "Unsupported file format" (by decide)⟩

/-- C8: deleting an existing session succeeds; afterwards a question
against that id answers with the 404 outcome, and a second delete also
reports the 404 outcome (idempotent failure, not a crash). -/
theorem C8_delete_idempotent (docs : PyApp.Store) (uid : String)
    (s : PyApp.Session) (h : dictLookup docs uid = some s) :
    (PyApp.delete_user_document docs uid).2 = .deleted
    ∧ (∀ embedQ llm question,
        PyApp.ask_question embedQ llm (PyApp.delete_user_document docs uid).1
          uid question = .notFound)
    ∧ (PyApp.delete_user_document
        (PyApp.delete_user_document docs uid).1 uid).2 = .notFound := by
  have hdel : PyApp.delete_user_document docs uid =
      (dictErase docs uid, .deleted) := by
    unfold PyApp.delete_user_document
    rw [h]
  have hnone : dictLookup (dictErase docs uid) uid = none :=
    dictLookup_dictErase_self docs uid
  have hdel2 : PyApp.delete_user_document (dictErase docs uid) uid =
      (dictErase docs uid, .notFound) := by
    unfold PyApp.delete_user_document
    rw [hnone]
  refine ⟨?_, ?_, ?_⟩
  · rw [hdel]
  · intro embedQ llm question
    rw [hdel]
    show PyApp.ask_question embedQ llm (dictErase docs uid) uid question =
      .notFound
    unfold PyApp.ask_question
    rw [hnone]
  · rw [hdel]
    show (PyApp.delete_user_document (dictErase docs uid) uid).2 = .notFound
    rw [hdel2]

/-- Session for the C8 witness. -/
def c8Session : PyApp.Session := ⟨[], ⟨"c.pdf", [[["hi"]]], "t0", 1⟩⟩

/-- Store holding one concrete session, for the C8 witness. -/
def c8Store : PyApp.Store := [("u", c8Session)]

/-- C8 witness: a concrete one-session store, deleted, queried, deleted
again. -/
theorem C8_delete_idempotent_witness :
    dictLookup c8Store "u" = some c8Session
    ∧ ((PyApp.delete_user_document c8Store "u").2 = .deleted
      ∧ (∀ embedQ llm question,
          PyApp.ask_question embedQ llm
            (PyApp.delete_user_document c8Store "u").1 "u" question =
          .notFound)
      ∧ (PyApp.delete_user_document
          (PyApp.delete_user_document c8Store "u").1 "u").2 = .notFound) :=
  ⟨by decide, C8_delete_idempotent c8Store "u" c8Session (by decide)⟩

/-- C9: with the 0.7/0.3 weights of the source, the fused score is
strictly monotone in the primary score when the enhanced score is held
fixed. -/
theorem C9_fusion_monotone (p q s : ℚ) (h : p < q) :
    PyMain.combinedScore p s < PyMain.combinedScore q s := by
  unfold PyMain.combinedScore
  have h7 : (0:ℚ) < 0.7 := by norm_num
  nlinarith

/-- C9 witness: raising the primary score from 0 to 1 with the enhanced
score fixed at 1 strictly raises the fused score. -/
theorem C9_fusion_monotone_witness :
    (0:ℚ) < 1 ∧ PyMain.combinedScore 0 1 < PyMain.combinedScore 1 1 :=
  ⟨by decide, C9_fusion_monotone 0 1 1 (by decide)⟩

/-- C10: the summary of an existing session is generated from at most the
first 50 chunks (`chunks[:50]`; chunks beyond position 50 are silently
excluded from the LLM context), while the response still reports the
number of chunks analyzed (`min 50 total`) and the total chunk count. -/
theorem C10_summary_first_50 (llm : List (List Sentence) → String)
    (docs : PyApp.Store) (uid : String) (d : PyApp.Session)
    (h : dictLookup docs uid = some d) :
    PyApp.generate_summary llm docs uid =
      .ok ⟨llm (d.metadata.chunks.take 50), d.metadata.filename,
        min 50 d.metadata.chunks.length, d.metadata.chunks.length⟩ := by
  unfold PyApp.generate_summary
  rw [h]
  simp only []
  by_cases hc : d.metadata.chunks.length > 50
  · rw [if_pos hc]
    have hlen : (d.metadata.chunks.take 50).length =
        min 50 d.metadata.chunks.length := List.length_take 50 _
    rw [hlen]
  · rw [if_neg hc]
    have hle : d.metadata.chunks.length ≤ 50 := Nat.le_of_not_lt hc
    have htake : d.metadata.chunks.take 50 = d.metadata.chunks :=
      List.take_of_length_le hle
    rw [htake, Nat.min_eq_right hle]

/-- Session for the C10 witness. -/
def c10Session : PyApp.Session := ⟨[], ⟨"c.pdf", [[["a"]], [["b"]]], "t0", 2⟩⟩

/-- Store holding one concrete two-chunk session, for the C10 witness. -/
def c10Store : PyApp.Store := [("u", c10Session)]

/-- C10 witness: a concrete two-chunk session summarised. -/
theorem C10_summary_first_50_witness :
    dictLookup c10Store "u" = some c10Session
    ∧ PyApp.generate_summary (fun _ => "sum") c10Store "u" =
      .ok ⟨(fun _ => "sum") (([[["a"]], [["b"]]] :
            List (List Sentence)).take 50), "c.pdf",
        min 50 ([[["a"]], [["b"]]] : List (List Sentence)).length,
        ([[["a"]], [["b"]]] : List (List Sentence)).length⟩ :=
  ⟨by decide, C10_summary_first_50 (fun _ => "sum") c10Store "u" c10Session (by decide)⟩

/-! Claim C2: the vector-index search contract. -/

/-- C2: for an index holding `N` vectors and `k > 0`, search returns
`(position, score)` pairs of length `min k N`, ordered by descending
score, and every returned position is a valid index below `N`. -/
theorem C2_search_contract (vecs : List (List ℚ)) (q : List ℚ) (k : Nat)
    (hk : 0 < k) :
    (isearch vecs q k).length = min k vecs.length
    ∧ (isearch vecs q k).Pairwise (fun a b => b.2 ≤ a.2)
    ∧ ∀ p ∈ isearch vecs q k, p.1 < vecs.length := by
  have hperm := List.perm_insertionSort srank ((vecs.map (dot q)).enum)
  have hsorted := List.sorted_insertionSort srank ((vecs.map (dot q)).enum)
  refine ⟨?_, ?_, ?_⟩
  · rw [isearch, List.length_take, hperm.length_eq, List.enum_length,
      List.length_map]
  · have hp : (isearch vecs q k).Pairwise srank :=
      List.Pairwise.sublist (List.take_sublist k _) hsorted
    refine hp.imp ?_
    intro a b hab
    rcases hab with h | ⟨h, -⟩
    · exact le_of_lt h
    · exact le_of_eq h.symm
  · intro p hp
    have hmem : p ∈ (vecs.map (dot q)).enum :=
      hperm.mem_iff.mp (List.Sublist.mem hp (List.take_sublist k _))
    obtain ⟨i, s⟩ := p
    rw [List.enum_eq_zip_range] at hmem
    have hr := (List.of_mem_zip hmem).1
    rw [List.mem_range, List.length_map] at hr
    exact hr

/-- Index of two zero-dimensional vectors, for the C2 witness. -/
def c2Index : List (List ℚ) := [[], []]

/-- C2 witness: searching a two-vector index with `k = 1`. -/
theorem C2_search_contract_witness :
    0 < 1 ∧ ((isearch c2Index [] 1).length = min 1 c2Index.length
      ∧ (isearch c2Index [] 1).Pairwise (fun a b => b.2 ≤ a.2)
      ∧ ∀ p ∈ isearch c2Index [] 1, p.1 < c2Index.length) :=
  ⟨by decide, C2_search_contract c2Index [] 1 (by decide)⟩

/-! Claims C3, C5, C6: the text segmenter. -/

theorem sumTok_append (c₁ c₂ : List Sentence) :
    sumTok (c₁ ++ c₂) = sumTok c₁ + sumTok c₂ := by
  simp [sumTok]

theorem sumTok_singleton (s : Sentence) : sumTok [s] = s.length := by
  simp [sumTok]

theorem lastN_length_le (n : Nat) (l : List α) : (lastN n l).length ≤ n := by
  simp only [lastN, List.length_drop]
  omega

/-- Bound invariant of the chunking loop: every produced chunk either
respects the token budget or is an overflow seed of at most `ov + 1`
sentences. -/
theorem chunkLoop_bound (maxT ov : Nat) :
    ∀ (sents : List Sentence) (chunks : List (List Sentence))
      (cur : List Sentence) (curLen : Nat),
      curLen = sumTok cur →
      (∀ c ∈ chunks, sumTok c ≤ maxT ∨ c.length ≤ ov + 1) →
      (sumTok cur ≤ maxT ∨ cur.length ≤ ov + 1) →
      ∀ c ∈ PyApp.chunkLoop maxT ov sents chunks cur curLen,
        sumTok c ≤ maxT ∨ c.length ≤ ov + 1 := by
  intro sents
  induction sents with
  | nil =>
    intro chunks cur curLen hlen hchunks hcur c hc
    rw [PyApp.chunkLoop] at hc
    by_cases hemp : cur.isEmpty
    · rw [if_pos hemp] at hc
      exact hchunks c hc
    · rw [if_neg hemp] at hc
      rcases List.mem_append.mp hc with hh | hh
      · exact hchunks c hh
      · rw [List.mem_singleton] at hh
        subst hh
        exact hcur
  | cons s rest ih =>
    intro chunks cur curLen hlen hchunks hcur c hc
    rw [PyApp.chunkLoop] at hc
    simp only [] at hc
    by_cases hfit : curLen + s.length ≤ maxT
    · rw [if_pos hfit] at hc
      refine ih chunks (cur ++ [s]) (curLen + s.length) ?_ hchunks ?_ c hc
      · rw [sumTok_append, sumTok_singleton, hlen]
      · left
        rw [sumTok_append, sumTok_singleton, ← hlen]
        exact hfit
    · rw [if_neg hfit] at hc
      refine ih _ _ _ rfl ?_ ?_ c hc
      · intro c' hc'
        by_cases hemp : cur.isEmpty
        · rw [if_pos hemp] at hc'
          exact hchunks c' hc'
        · rw [if_neg hemp] at hc'
          rcases List.mem_append.mp hc' with hh | hh
          · exact hchunks c' hh
          · rw [List.mem_singleton] at hh
            subst hh
            exact hcur
      · right
        rw [List.length_append, List.length_singleton]
        have hov : (if ov = 0 then ([] : List Sentence) else lastN ov cur).length ≤ ov := by
          by_cases h0 : ov = 0
          · simp [h0]
          · rw [if_neg h0]
            exact lastN_length_le ov cur
        omega

/-- C3 (amended): a chunk produced by the segmenter either stays within
`max_tokens`, or it consists of at most `overlap_sentences + 1` sentences
— an overflow seed made of the retained overlap plus the sentence that
triggered the overflow (a single oversized sentence is the special case
`overlap_sentences = 0`). -/
theorem C3_chunk_bound_amended (sents : List Sentence) (maxT ov : Nat)
    (c : List Sentence) (hc : c ∈ PyApp.chunk_text sents maxT ov) :
    sumTok c ≤ maxT ∨ c.length ≤ ov + 1 :=
  chunkLoop_bound maxT ov sents [] [] 0 rfl (by simp)
    (Or.inl (by simp [sumTok, Nat.zero_le])) c hc

/-- Two six-token sentences, for the C3 counterexample. -/
def c3Sentences : List Sentence :=
  [["a","b","c","d","e","f"], ["g","h","i","j","k","l"]]

/-- The overflow-seeded second chunk the segmenter produces on
`c3Sentences` with `max_tokens = 10`, `overlap_sentences = 2`. -/
def c3BigChunk : List Sentence :=
  [["a","b","c","d","e","f"], ["g","h","i","j","k","l"]]

/-- C3 counterexample: with `max_tokens = 10` and `overlap_sentences = 2`,
the two six-token sentences produce a second chunk holding both sentences
(12 tokens), so a chunk can exceed `max_tokens` without being a single
oversized sentence: the claim as stated is false. -/
theorem C3_chunk_bound_counterexample :
    ¬ (∀ c ∈ PyApp.chunk_text c3Sentences 10 2,
        sumTok c ≤ 10 ∨ (c.length = 1 ∧ 10 < sumTok c)) := by decide

/-- C3 witness: the oversized two-sentence chunk satisfies the amended
bound through its sentence count. -/
theorem C3_chunk_bound_amended_witness :
    c3BigChunk ∈ PyApp.chunk_text c3Sentences 10 2
    ∧ (sumTok c3BigChunk ≤ 10 ∨ c3BigChunk.length ≤ 2 + 1) :=
  ⟨by decide, C3_chunk_bound_amended c3Sentences 10 2 c3BigChunk (by decide)⟩

/-- Chunk `c₂` begins with the last `ov` sentences of chunk `c₁` followed
by at least one further sentence (the overflow trigger). -/
def seeded (ov : Nat) (c₁ c₂ : List Sentence) : Prop :=
  ∃ s t, c₂ = lastN ov c₁ ++ s :: t

/-- Every pair of consecutive chunks in `l` is linked by overlap
seeding. -/
def chainLinked (ov : Nat) (l : List (List Sentence)) : Prop :=
  ∀ i c₁ c₂, l[i]? = some c₁ → l[i+1]? = some c₂ → seeded ov c₁ c₂

theorem seeded_append (ov : Nat) (c₁ c₂ : List Sentence) (s : Sentence)
    (h : seeded ov c₁ c₂) : seeded ov c₁ (c₂ ++ [s]) := by
  obtain ⟨s₀, t₀, rfl⟩ := h
  exact ⟨s₀, t₀ ++ [s], by simp⟩

theorem seeded_seed (ov : Nat) (cur : List Sentence) (s : Sentence) :
    seeded ov cur ((if ov = 0 then [] else lastN ov cur) ++ [s]) := by
  by_cases h : ov = 0
  · subst h
    refine ⟨s, [], ?_⟩
    simp [lastN]
  · rw [if_neg h]
    exact ⟨s, [], rfl⟩

theorem chainLinked_nil (ov : Nat) : chainLinked ov [] := by
  intro i c₁ c₂ h₁ h₂
  simp at h₁

theorem chainLinked_concat (ov : Nat) (l : List (List Sentence))
    (cur : List Sentence) (hl : chainLinked ov l)
    (hlast : ∀ c, l.getLast? = some c → seeded ov c cur) :
    chainLinked ov (l ++ [cur]) := by
  intro i c₁ c₂ h₁ h₂
  have hlt : i + 1 < l.length + 1 := by
    have := (List.getElem?_eq_some_iff.mp h₂).1
    simpa using this
  by_cases hi : i + 1 < l.length
  · have h₁' : l[i]? = some c₁ := by
      rw [List.getElem?_append, if_pos (by omega)] at h₁
      exact h₁
    have h₂' : l[i+1]? = some c₂ := by
      rw [List.getElem?_append, if_pos hi] at h₂
      exact h₂
    exact hl i c₁ c₂ h₁' h₂'
  · have hieq : i + 1 = l.length := by omega
    have h₂' : c₂ = cur := by
      rw [hieq, List.getElem?_concat_length] at h₂
      exact (Option.some.injEq ..).mp h₂.symm
    have h₁' : l[i]? = some c₁ := by
      rw [List.getElem?_append, if_pos (by omega)] at h₁
      exact h₁
    have hlast' : l.getLast? = some c₁ := by
      rw [List.getLast?_eq_getElem?]
      have : l.length - 1 = i := by omega
      rw [this]
      exact h₁'
    rw [h₂']
    exact hlast c₁ hlast'

/-- Chain invariant of the chunking loop: consecutive output chunks are
linked by overlap seeding. -/
theorem chunkLoop_chain (maxT ov : Nat) :
    ∀ (sents : List Sentence) (chunks : List (List Sentence))
      (cur : List Sentence) (curLen : Nat),
      chainLinked ov chunks →
      (cur = [] → chunks = []) →
      (∀ c, chunks.getLast? = some c → cur ≠ [] → seeded ov c cur) →
      chainLinked ov (PyApp.chunkLoop maxT ov sents chunks cur curLen) := by
  intro sents
  induction sents with
  | nil =>
    intro chunks cur curLen hl hemp hlast
    rw [PyApp.chunkLoop]
    by_cases he : cur.isEmpty
    · rw [if_pos he]
      exact hl
    · rw [if_neg he]
      refine chainLinked_concat ov chunks cur hl ?_
      intro c hc
      exact hlast c hc (by simpa [List.isEmpty_iff] using he)
  | cons s rest ih =>
    intro chunks cur curLen hl hemp hlast
    rw [PyApp.chunkLoop]
    simp only []
    by_cases hfit : curLen + s.length ≤ maxT
    · rw [if_pos hfit]
      refine ih chunks (cur ++ [s]) (curLen + s.length) hl ?_ ?_
      · intro h
        exact absurd h (by simp)
      · intro c hc _
        by_cases hcur : cur = []
        · rw [hemp hcur] at hc
          simp at hc
        · exact seeded_append ov c cur s (hlast c hc hcur)
    · rw [if_neg hfit]
      by_cases hcur : cur.isEmpty
      · rw [if_pos hcur]
        have hcur' : cur = [] := List.isEmpty_iff.mp hcur
        refine ih chunks _ _ hl ?_ ?_
        · intro h
          exact absurd h (by simp)
        · intro c hc _
          rw [hemp hcur'] at hc
          simp at hc
      · rw [if_neg hcur]
        have hcur' : cur ≠ [] := by simpa [List.isEmpty_iff] using hcur
        refine ih (chunks ++ [cur]) _ _ ?_ ?_ ?_
        · exact chainLinked_concat ov chunks cur hl
            (fun c hc => hlast c hc hcur')
        · intro h
          exact absurd h (by simp)
        · intro c hc _
          rw [List.getLast?_concat] at hc
          have : c = cur := (Option.some.injEq ..).mp hc.symm
          rw [this]
          exact seeded_seed ov cur s

/-- C5: whenever the segmenter's output has consecutive chunks, the later
chunk begins with the last `overlap_sentences` sentences of the earlier
one, followed by the sentence that triggered the overflow (and possibly
more sentences). -/
theorem C5_overlap_seed (maxT ov : Nat) (sents : List Sentence) (i : Nat)
    (c₁ c₂ : List Sentence)
    (h₁ : (PyApp.chunk_text sents maxT ov)[i]? = some c₁)
    (h₂ : (PyApp.chunk_text sents maxT ov)[i+1]? = some c₂) :
    ∃ s t, c₂ = lastN ov c₁ ++ s :: t :=
  chunkLoop_chain maxT ov sents [] [] 0 (chainLinked_nil ov) (fun _ => rfl)
    (fun c hc _ => by simp at hc) i c₁ c₂ h₁ h₂

/-- First sentence of the C5 witness text. -/
def c5A : Sentence := ["alpha","is","first."]

/-- Second sentence of the C5 witness text. -/
def c5B : Sentence := ["beta","is","second."]

/-- C5 witness: two three-token sentences with `max_tokens = 4` and
`overlap_sentences = 1` split into two chunks, and the second chunk
begins with the last (only) sentence of the first. -/
theorem C5_overlap_seed_witness :
    (PyApp.chunk_text [c5A, c5B] 4 1)[0]? = some [c5A]
    ∧ (PyApp.chunk_text [c5A, c5B] 4 1)[1]? = some [c5A, c5B]
    ∧ ∃ s t, [c5A, c5B] = lastN 1 [c5A] ++ s :: t :=
  ⟨by decide, by decide,
    C5_overlap_seed 4 1 [c5A, c5B] 0 [c5A] [c5A, c5B] (by decide) (by decide)⟩

/-- Superset invariant of the chunking loop: the sentences already
emitted or pending, together with the sentences still to process, all
appear in the final output. -/
theorem chunkLoop_superset (maxT ov : Nat) :
    ∀ (sents : List Sentence) (chunks : List (List Sentence))
      (cur : List Sentence) (curLen : Nat),
      List.Subperm (chunks.flatten ++ cur ++ sents)
        (PyApp.chunkLoop maxT ov sents chunks cur curLen).flatten := by
  intro sents
  induction sents with
  | nil =>
    intro chunks cur curLen
    rw [PyApp.chunkLoop]
    by_cases he : cur.isEmpty
    · rw [if_pos he, List.isEmpty_iff.mp he]
      simp [List.Subperm.refl]
    · rw [if_neg he]
      have : (chunks ++ [cur]).flatten = chunks.flatten ++ cur := by
        simp
      rw [this]
      simp [List.Subperm.refl]
  | cons s rest ih =>
    intro chunks cur curLen
    rw [PyApp.chunkLoop]
    simp only []
    by_cases hfit : curLen + s.length ≤ maxT
    · rw [if_pos hfit]
      have heq : chunks.flatten ++ cur ++ (s :: rest) =
          chunks.flatten ++ (cur ++ [s]) ++ rest := by
        simp
      rw [heq]
      exact ih chunks (cur ++ [s]) (curLen + s.length)
    · rw [if_neg hfit]
      refine List.Subperm.trans ?_ (ih _ _ _)
      by_cases he : cur.isEmpty
      · rw [if_pos he, List.isEmpty_iff.mp he]
        by_cases h0 : ov = 0
        · rw [if_pos h0]
          simp [List.Subperm.refl]
        · rw [if_neg h0]
          have : lastN ov ([] : List Sentence) = [] := by
            simp [lastN]
          rw [this]
          simp [List.Subperm.refl]
      · rw [if_neg he]
        have hflat : (chunks ++ [cur]).flatten = chunks.flatten ++ cur := by
          simp
        rw [hflat]
        have hsub : List.Subperm (s :: rest)
            ((if ov = 0 then [] else lastN ov cur) ++ [s] ++ rest) := by
          have : (if ov = 0 then [] else lastN ov cur) ++ [s] ++ rest =
              (if ov = 0 then [] else lastN ov cur) ++ (s :: rest) := by
            simp
          rw [this]
          exact (List.sublist_append_right _ _).subperm
        have h₁ := (List.subperm_append_left (chunks.flatten ++ cur)).mpr hsub
        simpa [List.append_assoc] using h₁

/-- C6: no input sentence is ever dropped — the multiset of sentences of
the input embeds into the multiset of sentences across all chunks of the
segmenter's output (overlap only duplicates sentences). -/
theorem C6_no_sentence_dropped (sents : List Sentence) (maxT ov : Nat) :
    (sents : Multiset Sentence) ≤
      ((PyApp.chunk_text sents maxT ov).flatten : Multiset Sentence) := by
  rw [Multiset.coe_le]
  have := chunkLoop_superset maxT ov sents [] [] 0
  simpa using this

/-! Claims C4 and C1: ensemble fusion.  The two loops of `main.py`'s
`semantic_search` are characterised by the chunk-id association list of
each (valid) result list, assuming the chunk ids of each side are
distinct (FAISS returns distinct positions and the metadata assigns one
id per row). -/

/-- Lookup in the dictionary after the primary loop: the primary entry of
the hit keyed by `cid` if present, the prior binding otherwise. -/
theorem primaryFold_lookup (df : List PyMain.ChunkMeta) :
    ∀ (P : List (ℚ × Int)) (m : List (String × PyMain.FusedEntry)),
      (PyMain.cidsOf df P).Nodup →
      ∀ cid, dictLookup (PyMain.primaryFold df P m) cid =
        (match dictLookup (PyMain.resAssoc df P) cid with
        | some p => some (PyMain.primaryEntry df p)
        | none => dictLookup m cid) := by
  intro P
  induction P with
  | nil =>
    intro m hnd cid
    simp [PyMain.primaryFold, PyMain.resAssoc, PyMain.validRes, dictLookup]
  | cons p t ih =>
    intro m hnd cid
    by_cases hval : p.2 ≠ -1 ∧ p.2 < (df.length : Int)
    · have hassoc : PyMain.resAssoc df (p :: t) =
          ((PyMain.rowOf df p.2).chunk_id, p) :: PyMain.resAssoc df t := by
        simp [PyMain.resAssoc, PyMain.validRes, List.filter_cons, hval]
      have hcids : PyMain.cidsOf df (p :: t) =
          (PyMain.rowOf df p.2).chunk_id :: PyMain.cidsOf df t := by
        simp [PyMain.cidsOf, hassoc]
      rw [hcids, List.nodup_cons] at hnd
      have hfold : PyMain.primaryFold df (p :: t) m =
          PyMain.primaryFold df t
            (dictInsert m (PyMain.rowOf df p.2).chunk_id
              (PyMain.primaryEntry df p)) := by
        rw [PyMain.primaryFold, if_pos hval]
      rw [hfold, ih _ hnd.2 cid, hassoc]
      by_cases hcid : cid = (PyMain.rowOf df p.2).chunk_id
      · subst hcid
        have hnone : dictLookup (PyMain.resAssoc df t)
            (PyMain.rowOf df p.2).chunk_id = none := by
          rw [dictLookup_eq_none_iff]
          simpa [PyMain.cidsOf, dictKeys] using hnd.1
        have hhead : dictLookup
            (((PyMain.rowOf df p.2).chunk_id, p) :: PyMain.resAssoc df t)
            (PyMain.rowOf df p.2).chunk_id = some p := by
          simp [dictLookup]
        simp only [hnone, hhead]
        exact dictLookup_dictInsert_self m _ _
      · have hhead : dictLookup
            (((PyMain.rowOf df p.2).chunk_id, p) :: PyMain.resAssoc df t) cid
            = dictLookup (PyMain.resAssoc df t) cid := by
          have : ¬ ((PyMain.rowOf df p.2).chunk_id = cid) :=
            fun hh => hcid hh.symm
          simp [dictLookup, this]
        rw [hhead]
        cases hmatch : dictLookup (PyMain.resAssoc df t) cid with
        | some q => rfl
        | none => exact dictLookup_dictInsert_ne m _ cid _ hcid
    · have hassoc : PyMain.resAssoc df (p :: t) = PyMain.resAssoc df t := by
        simp [PyMain.resAssoc, PyMain.validRes, List.filter_cons, hval]
      have hcids : PyMain.cidsOf df (p :: t) = PyMain.cidsOf df t := by
        simp [PyMain.cidsOf, hassoc]
      rw [hcids] at hnd
      have hfold : PyMain.primaryFold df (p :: t) m =
          PyMain.primaryFold df t m := by
        rw [PyMain.primaryFold, if_neg hval]
      rw [hfold, ih _ hnd cid, hassoc]

/-- Lookup in the dictionary after the enhanced loop: an existing entry
gets its `score_enhanced` overwritten, an absent chunk enters with
`score_primary = 0.0`. -/
theorem enhancedFold_lookup (df : List PyMain.ChunkMeta) :
    ∀ (E : List (ℚ × Int)) (m : List (String × PyMain.FusedEntry)),
      (PyMain.cidsOf df E).Nodup →
      ∀ cid, dictLookup (PyMain.enhancedFold df E m) cid =
        (match dictLookup (PyMain.resAssoc df E) cid with
        | some p =>
          match dictLookup m cid with
          | some e => some { e with score_enhanced := p.1 }
          | none => some (PyMain.enhancedEntry df p)
        | none => dictLookup m cid) := by
  intro E
  induction E with
  | nil =>
    intro m hnd cid
    simp [PyMain.enhancedFold, PyMain.resAssoc, PyMain.validRes, dictLookup]
  | cons p t ih =>
    intro m hnd cid
    by_cases hval : p.2 ≠ -1 ∧ p.2 < (df.length : Int)
    · have hassoc : PyMain.resAssoc df (p :: t) =
          ((PyMain.rowOf df p.2).chunk_id, p) :: PyMain.resAssoc df t := by
        simp [PyMain.resAssoc, PyMain.validRes, List.filter_cons, hval]
      have hcids : PyMain.cidsOf df (p :: t) =
          (PyMain.rowOf df p.2).chunk_id :: PyMain.cidsOf df t := by
        simp [PyMain.cidsOf, hassoc]
      rw [hcids, List.nodup_cons] at hnd
      rw [hassoc]
      by_cases hcid : cid = (PyMain.rowOf df p.2).chunk_id
      · subst hcid
        have hnone : dictLookup (PyMain.resAssoc df t)
            (PyMain.rowOf df p.2).chunk_id = none := by
          rw [dictLookup_eq_none_iff]
          simpa [PyMain.cidsOf, dictKeys] using hnd.1
        have hhead : dictLookup
            (((PyMain.rowOf df p.2).chunk_id, p) :: PyMain.resAssoc df t)
            (PyMain.rowOf df p.2).chunk_id = some p := by
          simp [dictLookup]
        cases hm : dictLookup m ((PyMain.rowOf df p.2).chunk_id) with
        | some e =>
          have hfold : PyMain.enhancedFold df (p :: t) m =
              PyMain.enhancedFold df t
                (dictInsert m (PyMain.rowOf df p.2).chunk_id
                  { e with score_enhanced := p.1 }) := by
            rw [PyMain.enhancedFold, if_pos hval, hm]
          rw [hfold, ih _ hnd.2 _]
          simp only [hnone, hhead, hm,
            dictLookup_dictInsert_self m _ _]
        | none =>
          have hfold : PyMain.enhancedFold df (p :: t) m =
              PyMain.enhancedFold df t
                (dictInsert m (PyMain.rowOf df p.2).chunk_id
                  (PyMain.enhancedEntry df p)) := by
            rw [PyMain.enhancedFold, if_pos hval, hm]
          rw [hfold, ih _ hnd.2 _]
          simp only [hnone, hhead, hm,
            dictLookup_dictInsert_self m _ _]
      · have hhead : dictLookup
            (((PyMain.rowOf df p.2).chunk_id, p) :: PyMain.resAssoc df t) cid
            = dictLookup (PyMain.resAssoc df t) cid := by
          have : ¬ ((PyMain.rowOf df p.2).chunk_id = cid) :=
            fun hh => hcid hh.symm
          simp [dictLookup, this]
        rw [hhead]
        cases hm : dictLookup m ((PyMain.rowOf df p.2).chunk_id) with
        | some e =>
          have hfold : PyMain.enhancedFold df (p :: t) m =
              PyMain.enhancedFold df t
                (dictInsert m (PyMain.rowOf df p.2).chunk_id
                  { e with score_enhanced := p.1 }) := by
            rw [PyMain.enhancedFold, if_pos hval, hm]
          rw [hfold, ih _ hnd.2 cid,
            dictLookup_dictInsert_ne m _ cid _ hcid]
        | none =>
          have hfold : PyMain.enhancedFold df (p :: t) m =
              PyMain.enhancedFold df t
                (dictInsert m (PyMain.rowOf df p.2).chunk_id
                  (PyMain.enhancedEntry df p)) := by
            rw [PyMain.enhancedFold, if_pos hval, hm]
          rw [hfold, ih _ hnd.2 cid,
            dictLookup_dictInsert_ne m _ cid _ hcid]
    · have hassoc : PyMain.resAssoc df (p :: t) = PyMain.resAssoc df t := by
        simp [PyMain.resAssoc, PyMain.validRes, List.filter_cons, hval]
      have hcids : PyMain.cidsOf df (p :: t) = PyMain.cidsOf df t := by
        simp [PyMain.cidsOf, hassoc]
      rw [hcids] at hnd
      have hfold : PyMain.enhancedFold df (p :: t) m =
          PyMain.enhancedFold df t m := by
        rw [PyMain.enhancedFold, if_neg hval]
      rw [hfold, ih _ hnd cid, hassoc]

/-- The primary loop preserves key distinctness of the dictionary. -/
theorem primaryFold_nodupKeys (df : List PyMain.ChunkMeta) :
    ∀ (P : List (ℚ × Int)) (m : List (String × PyMain.FusedEntry)),
      (dictKeys m).Nodup → (dictKeys (PyMain.primaryFold df P m)).Nodup := by
  intro P
  induction P with
  | nil => intro m hm; simpa [PyMain.primaryFold] using hm
  | cons p t ih =>
    intro m hm
    rw [PyMain.primaryFold]
    by_cases hval : p.2 ≠ -1 ∧ p.2 < (df.length : Int)
    · rw [if_pos hval]
      exact ih _ (dictKeys_dictInsert_nodup m _ _ hm)
    · rw [if_neg hval]
      exact ih _ hm

/-- The enhanced loop preserves key distinctness of the dictionary. -/
theorem enhancedFold_nodupKeys (df : List PyMain.ChunkMeta) :
    ∀ (E : List (ℚ × Int)) (m : List (String × PyMain.FusedEntry)),
      (dictKeys m).Nodup → (dictKeys (PyMain.enhancedFold df E m)).Nodup := by
  intro E
  induction E with
  | nil => intro m hm; simpa [PyMain.enhancedFold] using hm
  | cons p t ih =>
    intro m hm
    rw [PyMain.enhancedFold]
    by_cases hval : p.2 ≠ -1 ∧ p.2 < (df.length : Int)
    · rw [if_pos hval]
      cases hlk : dictLookup m (PyMain.rowOf df p.2).chunk_id with
      | some e => exact ih _ (dictKeys_dictInsert_nodup m _ _ hm)
      | none => exact ih _ (dictKeys_dictInsert_nodup m _ _ hm)
    · rw [if_neg hval]
      exact ih _ hm

/-- `combined_results` is a well-formed dictionary: distinct keys. -/
theorem fuseDict_nodupKeys (df : List PyMain.ChunkMeta) (P E : List (ℚ × Int)) :
    (dictKeys (PyMain.fuseDict df P E)).Nodup :=
  enhancedFold_nodupKeys df E _ (primaryFold_nodupKeys df P [] (by simp [dictKeys]))

/-- Characterisation of `combined_results` after both loops. -/
theorem fuseDict_lookup (df : List PyMain.ChunkMeta) (P E : List (ℚ × Int))
    (hP : (PyMain.cidsOf df P).Nodup) (hE : (PyMain.cidsOf df E).Nodup)
    (cid : String) :
    dictLookup (PyMain.fuseDict df P E) cid =
      (match dictLookup (PyMain.resAssoc df P) cid,
          dictLookup (PyMain.resAssoc df E) cid with
      | some p, some q =>
        some { PyMain.primaryEntry df p with score_enhanced := q.1 }
      | some p, none => some (PyMain.primaryEntry df p)
      | none, some q => some (PyMain.enhancedEntry df q)
      | none, none => none) := by
  rw [PyMain.fuseDict, enhancedFold_lookup df E _ hE cid,
    primaryFold_lookup df P [] hP cid]
  cases hp : dictLookup (PyMain.resAssoc df P) cid with
  | some p =>
    cases he : dictLookup (PyMain.resAssoc df E) cid with
    | some q => simp [dictLookup]
    | none => simp [dictLookup]
  | none =>
    cases he : dictLookup (PyMain.resAssoc df E) cid with
    | some q => simp [dictLookup]
    | none => simp [dictLookup]

/-- Every returned fused result is the `combined_score`-annotated value
of some entry of `combined_results`. -/
theorem mem_fuseResults (df : List PyMain.ChunkMeta) (P E : List (ℚ × Int))
    (k : Nat) (r : PyMain.RankedEntry)
    (hr : r ∈ PyMain.fuseResults df P E k) :
    ∃ cid e, (cid, e) ∈ PyMain.fuseDict df P E ∧ r = PyMain.withCombined e := by
  rw [PyMain.fuseResults] at hr
  have h₁ : r ∈ List.insertionSort PyMain.rrank
      ((PyMain.fuseDict df P E).map fun q => PyMain.withCombined q.2) :=
    List.Sublist.mem hr (List.take_sublist k _)
  have h₂ : r ∈ (PyMain.fuseDict df P E).map
      (fun q => PyMain.withCombined q.2) :=
    (List.perm_insertionSort _ _).mem_iff.mp h₁
  obtain ⟨q, hq, rfl⟩ := List.mem_map.mp h₂
  exact ⟨q.1, q.2, by simpa using hq, rfl⟩

/-- C4: ensemble fusion unions the two (valid) per-provider result sets
by chunk identity — a chunk seen by only one side is kept, scoring `0.0`
on the missing side; every unioned chunk gets
`fused_score = 0.7 * primary + 0.3 * enhanced`; and the returned list is
the top `k` of the union in descending fused-score order: it is sorted
descending, the unreturned remainder scores no higher than anything
returned, and its length is `min k` (size of the union). -/
theorem C4_fusion_contract (df : List PyMain.ChunkMeta) (P E : List (ℚ × Int))
    (k : Nat) (hP : (PyMain.cidsOf df P).Nodup)
    (hE : (PyMain.cidsOf df E).Nodup) :
    (∀ cid, (∃ e, (cid, e) ∈ PyMain.fuseDict df P E) ↔
        (cid ∈ PyMain.cidsOf df P ∨ cid ∈ PyMain.cidsOf df E))
    ∧ (∀ cid e, (cid, e) ∈ PyMain.fuseDict df P E →
        e.score_primary = PyMain.sideScore df P cid
        ∧ e.score_enhanced = PyMain.sideScore df E cid)
    ∧ (∀ r ∈ PyMain.fuseResults df P E k,
        r.combined_score = PyMain.combinedScore r.score_primary r.score_enhanced)
    ∧ (PyMain.fuseResults df P E k).Pairwise
        (fun a b => b.combined_score ≤ a.combined_score)
    ∧ (∃ rest, ((PyMain.fuseDict df P E).map fun q => PyMain.withCombined q.2).Perm
          (PyMain.fuseResults df P E k ++ rest)
        ∧ ∀ a ∈ PyMain.fuseResults df P E k, ∀ b ∈ rest,
            b.combined_score ≤ a.combined_score)
    ∧ (PyMain.fuseResults df P E k).length =
        min k (PyMain.fuseDict df P E).length := by
  have hkeysP : dictKeys (PyMain.resAssoc df P) = PyMain.cidsOf df P := rfl
  have hkeysE : dictKeys (PyMain.resAssoc df E) = PyMain.cidsOf df E := rfl
  have hnodup := fuseDict_nodupKeys df P E
  refine ⟨?_, ?_, ?_, ?_, ?_, ?_⟩
  · intro cid
    constructor
    · rintro ⟨e, he⟩
      have hlk := (mem_iff_dictLookup _ _ _ hnodup).mp he
      rw [fuseDict_lookup df P E hP hE cid] at hlk
      by_cases hp : cid ∈ PyMain.cidsOf df P
      · exact Or.inl hp
      · right
        by_cases heq : cid ∈ PyMain.cidsOf df E
        · exact heq
        · exfalso
          have h₁ : dictLookup (PyMain.resAssoc df P) cid = none := by
            rw [dictLookup_eq_none_iff, hkeysP]; exact hp
          have h₂ : dictLookup (PyMain.resAssoc df E) cid = none := by
            rw [dictLookup_eq_none_iff, hkeysE]; exact heq
          rw [h₁, h₂] at hlk
          simp at hlk
    · intro hmem
      have hne : ¬ (dictLookup (PyMain.fuseDict df P E) cid = none) := by
        rw [fuseDict_lookup df P E hP hE cid]
        rcases hmem with hp | he
        · have : ¬ (dictLookup (PyMain.resAssoc df P) cid = none) := by
            rw [dictLookup_eq_none_iff, hkeysP]; exact fun h => h hp
          cases hlp : dictLookup (PyMain.resAssoc df P) cid with
          | some p =>
            cases dictLookup (PyMain.resAssoc df E) cid <;> simp
          | none => exact absurd hlp this
        · have : ¬ (dictLookup (PyMain.resAssoc df E) cid = none) := by
            rw [dictLookup_eq_none_iff, hkeysE]; exact fun h => h he
          cases hle : dictLookup (PyMain.resAssoc df E) cid with
          | some q =>
            cases dictLookup (PyMain.resAssoc df P) cid <;> simp
          | none => exact absurd hle this
      cases hlk : dictLookup (PyMain.fuseDict df P E) cid with
      | none => exact absurd hlk hne
      | some e => exact ⟨e, (mem_iff_dictLookup _ _ _ hnodup).mpr hlk⟩
  · intro cid e he
    have hlk := (mem_iff_dictLookup _ _ _ hnodup).mp he
    rw [fuseDict_lookup df P E hP hE cid] at hlk
    unfold PyMain.sideScore
    cases hp : dictLookup (PyMain.resAssoc df P) cid with
    | some p =>
      cases heq : dictLookup (PyMain.resAssoc df E) cid with
      | some q =>
        rw [hp, heq] at hlk
        simp only [Option.some.injEq] at hlk
        rw [← hlk]
        exact ⟨rfl, rfl⟩
      | none =>
        rw [hp, heq] at hlk
        simp only [Option.some.injEq] at hlk
        rw [← hlk]
        exact ⟨rfl, rfl⟩
    | none =>
      cases heq : dictLookup (PyMain.resAssoc df E) cid with
      | some q =>
        rw [hp, heq] at hlk
        simp only [Option.some.injEq] at hlk
        rw [← hlk]
        exact ⟨rfl, rfl⟩
      | none =>
        rw [hp, heq] at hlk
        simp at hlk
  · intro r hr
    obtain ⟨cid, e, -, rfl⟩ := mem_fuseResults df P E k r hr
    rfl
  · have hsorted := List.sorted_insertionSort PyMain.rrank
      ((PyMain.fuseDict df P E).map fun q => PyMain.withCombined q.2)
    have hp : (PyMain.fuseResults df P E k).Pairwise PyMain.rrank :=
      List.Pairwise.sublist (List.take_sublist k _) hsorted
    exact hp.imp (fun h => h)
  · refine ⟨(List.insertionSort PyMain.rrank
      ((PyMain.fuseDict df P E).map fun q => PyMain.withCombined q.2)).drop k,
      ?_, ?_⟩
    · have hperm := (List.perm_insertionSort PyMain.rrank
        ((PyMain.fuseDict df P E).map fun q => PyMain.withCombined q.2)).symm
      have hsplit := List.take_append_drop k (List.insertionSort PyMain.rrank
        ((PyMain.fuseDict df P E).map fun q => PyMain.withCombined q.2))
      rw [PyMain.fuseResults]
      calc ((PyMain.fuseDict df P E).map fun q => PyMain.withCombined q.2).Perm
            (List.insertionSort PyMain.rrank
              ((PyMain.fuseDict df P E).map fun q => PyMain.withCombined q.2)) := hperm
        _ = _ := hsplit.symm
    · intro a ha b hb
      have hsorted := List.sorted_insertionSort PyMain.rrank
        ((PyMain.fuseDict df P E).map fun q => PyMain.withCombined q.2)
      have hsplit := List.take_append_drop k (List.insertionSort PyMain.rrank
        ((PyMain.fuseDict df P E).map fun q => PyMain.withCombined q.2))
      rw [← hsplit] at hsorted
      have := (List.pairwise_append.mp hsorted).2.2
      exact this a ha b hb
  · rw [PyMain.fuseResults, List.length_take,
      (List.perm_insertionSort _ _).length_eq, List.length_map]

/-- Metadata frame for the C4 witness. -/
def c4Df : List PyMain.ChunkMeta := [⟨"a","t","f","ta"⟩, ⟨"b","t","f","tb"⟩]
/-- Primary result list for the C4 witness. -/
def c4P : List (ℚ × Int) := [(1, 0)]
/-- Enhanced result list for the C4 witness: a hit on a chunk the
primary side missed. -/
def c4E : List (ℚ × Int) := [(1, 1)]

/-- C4 witness: two one-hit result lists naming different chunks, fused
with `k = 2`. -/
theorem C4_fusion_contract_witness :
    (PyMain.cidsOf c4Df c4P).Nodup ∧ (PyMain.cidsOf c4Df c4E).Nodup ∧
    ((∀ cid, (∃ e, (cid, e) ∈ PyMain.fuseDict c4Df c4P c4E) ↔
        (cid ∈ PyMain.cidsOf c4Df c4P ∨ cid ∈ PyMain.cidsOf c4Df c4E))
    ∧ (∀ cid e, (cid, e) ∈ PyMain.fuseDict c4Df c4P c4E →
        e.score_primary = PyMain.sideScore c4Df c4P cid
        ∧ e.score_enhanced = PyMain.sideScore c4Df c4E cid)
    ∧ (∀ r ∈ PyMain.fuseResults c4Df c4P c4E 2,
        r.combined_score = PyMain.combinedScore r.score_primary r.score_enhanced)
    ∧ (PyMain.fuseResults c4Df c4P c4E 2).Pairwise
        (fun a b => b.combined_score ≤ a.combined_score)
    ∧ (∃ rest, ((PyMain.fuseDict c4Df c4P c4E).map fun q => PyMain.withCombined q.2).Perm
          (PyMain.fuseResults c4Df c4P c4E 2 ++ rest)
        ∧ ∀ a ∈ PyMain.fuseResults c4Df c4P c4E 2, ∀ b ∈ rest,
            b.combined_score ≤ a.combined_score)
    ∧ (PyMain.fuseResults c4Df c4P c4E 2).length =
        min 2 (PyMain.fuseDict c4Df c4P c4E).length) :=
  ⟨by decide, by decide, C4_fusion_contract c4Df c4P c4E 2 (by decide) (by decide)⟩

/-- C1 (amended): in ensemble mode the query is embedded by both
providers, but both query embeddings are searched against the single
shared index loaded at startup — there is no second per-provider index.
Consequently, whenever the two providers embed a query identically, the
two sides of the fusion coincide: every fused result carries equal
primary and enhanced scores.  (With two per-provider indices as the
claim describes, this would fail for indices that rank the two sides
differently — see the counterexample.) -/
theorem C1_shared_index_amended (embedP embedE : String → List ℚ)
    (df : List PyMain.ChunkMeta) (vecs : List (List ℚ)) (q : String) (k : Nat)
    (heq : embedP q = embedE q)
    (hnd : (PyMain.cidsOf df (PyMain.resList vecs (embedP q) k)).Nodup) :
    ∀ r ∈ PyMain.semantic_search embedP embedE df vecs q k,
      r.score_primary = r.score_enhanced := by
  intro r hr
  rw [PyMain.semantic_search, ← heq] at hr
  obtain ⟨cid, e, hmem, rfl⟩ := mem_fuseResults df _ _ k r hr
  have hlk := (mem_iff_dictLookup _ _ _ (fuseDict_nodupKeys df _ _)).mp hmem
  rw [fuseDict_lookup df _ _ hnd hnd cid] at hlk
  cases hp : dictLookup (PyMain.resAssoc df
      (PyMain.resList vecs (embedP q) k)) cid with
  | none =>
    rw [hp] at hlk
    simp at hlk
  | some p =>
    rw [hp] at hlk
    simp only [Option.some.injEq] at hlk
    rw [← hlk]
    rfl

/-- Metadata frame for the C1 counterexample and witness. -/
def c1Df : List PyMain.ChunkMeta := [⟨"a","t","f","ta"⟩, ⟨"b","t","f","tb"⟩]
/-- Primary provider's embeddings of the two chunks. -/
def c1VP : List (List ℚ) := [[1], [0]]
/-- Secondary provider's embeddings of the same two chunks. -/
def c1VE : List (List ℚ) := [[0], [1]]

/-- The code's ensemble search on the shared index `c1VP`: both query
embeddings hit chunk 0, which therefore scores 1 on both sides. -/
theorem C1_counterexample_lhs :
    PyMain.semantic_search (fun _ => [1]) (fun _ => [1]) c1Df c1VP "q" 1 =
      [⟨"t", "f", "ta", 1, 1, 0, PyMain.combinedScore 1 1⟩] := by
  norm_num [PyMain.semantic_search, PyMain.fuseResults, PyMain.fuseDict,
    PyMain.primaryFold, PyMain.enhancedFold, PyMain.resList, isearch, dot,
    PyMain.rowOf, PyMain.primaryEntry, PyMain.enhancedEntry, dictInsert,
    dictLookup, PyMain.withCombined, c1Df, c1VP,
    List.insertionSort, List.orderedInsert, srank, PyMain.rrank,
    PyMain.validRes, List.enum, List.enumFrom]

/-- The two-parallel-index ensemble of the claim on `c1VP`/`c1VE`: the
secondary side ranks chunk 1 first, so chunk 0 scores 0 on the enhanced
side. -/
theorem C1_counterexample_rhs :
    PyMain.semantic_search_twoIndex (fun _ => [1]) (fun _ => [1]) c1Df c1VP c1VE "q" 1 =
      [⟨"t", "f", "ta", 1, 0, 0, PyMain.combinedScore 1 0⟩] := by
  norm_num [PyMain.semantic_search_twoIndex, PyMain.fuseResults, PyMain.fuseDict,
    PyMain.primaryFold, PyMain.enhancedFold, PyMain.resList, isearch, dot,
    PyMain.rowOf, PyMain.primaryEntry, PyMain.enhancedEntry, dictInsert,
    dictLookup, PyMain.withCombined, c1Df, c1VP, c1VE,
    List.insertionSort, List.orderedInsert, srank, PyMain.rrank,
    PyMain.combinedScore, PyMain.validRes, List.enum, List.enumFrom]

/-- C1 counterexample: with providers whose chunk embeddings differ, the
code's ensemble search (both query embeddings against the one shared
index) returns a different result than the two-parallel-index ensemble
the claim describes — the claim as stated is false of the code. -/
theorem C1_single_shared_index_counterexample :
    PyMain.semantic_search (fun _ => [1]) (fun _ => [1]) c1Df c1VP "q" 1 ≠
      PyMain.semantic_search_twoIndex (fun _ => [1]) (fun _ => [1]) c1Df c1VP
        c1VE "q" 1 := by
  rw [C1_counterexample_lhs, C1_counterexample_rhs]
  intro h
  have h₁ := List.cons.injEq .. |>.mp h |>.1
  have h₂ := congrArg PyMain.RankedEntry.score_enhanced h₁
  norm_num at h₂

/-- Degenerate shared index for the C1 witness. -/
def c1wVecs : List (List ℚ) := [[], []]

/-- C1 witness: identical (empty) query embeddings against the shared
index give fused results with equal per-side scores. -/
theorem C1_shared_index_amended_witness :
    ((fun _ : String => ([] : List ℚ)) "q" =
        (fun _ : String => ([] : List ℚ)) "q")
    ∧ (PyMain.cidsOf c1Df
        (PyMain.resList c1wVecs ((fun _ : String => ([] : List ℚ)) "q") 2)).Nodup
    ∧ ∀ r ∈ PyMain.semantic_search (fun _ => []) (fun _ => []) c1Df c1wVecs
        "q" 2, r.score_primary = r.score_enhanced :=
  ⟨rfl, by decide,
    C1_shared_index_amended (fun _ => []) (fun _ => []) c1Df c1wVecs "q" 2 rfl
      (by decide)⟩
